import Mathlib

/-!
Verification of the streamingslidesv2 sequencing and synchronization engine.

Shallow embedding of:
* the playback sequencer `buildPlaybackSequence` (display page),
* the display command reducer `handleCommand` and the local helpers
  `handleNext` / `handlePrevious`,
* the channel services `sendCommand` / `broadcastStatus` / `sendHeartbeat`
  and their subscribe counterparts (topic naming, publish-before-join guard,
  cache eviction, command logging),
* the controller-side heartbeat liveness poller (`RemoteControl`).

Machine integers of the source (JS numbers used as integer counters and
indices) are modelled as `Int`/`Nat`; all definitions are executable.
-/

namespace StreamingSlides

/-! ## Data model (src/types: Stream, StreamSettings, StreamItem) -/

/-- Source union `Stream.type` with values `slideshow`, `single-photo`, `video`. -/
inductive StreamType
  | slideshow
  | singlePhoto
  | video
deriving DecidableEq, Repr

/-- Source `StreamSettings` — only the fields the sequencer reads are carried;
the optional `frequency` field means: show after every X slides. -/
structure StreamSettings where
  duration : Option Int
  frequency : Option Int
deriving DecidableEq, Repr

/-- Source `StreamItem` — one playable unit.  The sequencer treats the content as an
opaque payload; we keep the identifying fields (`id`, `order`). -/
structure StreamItem where
  id : String
  order : Int
deriving DecidableEq, Repr

/-- Source `StreamWithItems` — a stream together with its (already sorted) items;
`settings` is nullable in the database (`StreamSettings | null`). -/
structure StreamWithItems where
  type : StreamType
  settings : Option StreamSettings
  items : List StreamItem
deriving DecidableEq, Repr

/-- Source `EnhancedStreamItem extends StreamItem` with `streamSettings` and
`streamType` copied from the owning stream. -/
structure EnhancedStreamItem where
  item : StreamItem
  streamSettings : Option StreamSettings
  streamType : StreamType
deriving DecidableEq, Repr

/-- Models the spread `...item` plus `streamSettings` and `streamType`. -/
def enhance (s : StreamWithItems) (it : StreamItem) : EnhancedStreamItem :=
  ⟨it, s.settings, s.type⟩

/-- Models `Number(getValue(stream.settings?.frequency, 5))`: a missing settings
object or a missing `frequency` field falls back to the default `5`. -/
def streamFrequency (s : StreamWithItems) : Int :=
  match s.settings with
  | none => 5
  | some st => st.frequency.getD 5

/-! ## The playback sequencer (`buildPlaybackSequence`) -/

/-- The base items: the items of every stream of type `slideshow`, enhanced, in
stream order then item order (the `slideshowStreams.forEach` accumulation). -/
def baseItemsOf (streams : List StreamWithItems) : List EnhancedStreamItem :=
  (streams.filter (fun s => s.type == StreamType.slideshow)).flatMap
    (fun s => s.items.map (enhance s))

/-- Models the concatenation of the single-photo streams and the video streams. -/
def freqStreamsOf (streams : List StreamWithItems) : List StreamWithItems :=
  streams.filter (fun s => s.type == StreamType.singlePhoto)
    ++ streams.filter (fun s => s.type == StreamType.video)

/-- One scheduled interstitial item: the `frequencyItems` entries
`{ item, frequency, nextInsertAt }` (the source also stores a never-read
`itemIndex: 0`, omitted here). -/
structure FreqItem where
  item : EnhancedStreamItem
  frequency : Int
  nextInsertAt : Int
deriving DecidableEq, Repr

/-- Build the `frequencyItems` list: for every interstitial stream with at
least one item, one entry per item, each starting with
`nextInsertAt = frequency`. -/
def freqItemsOf (streams : List StreamWithItems) : List FreqItem :=
  (freqStreamsOf streams).flatMap (fun s =>
    if s.items.length > 0 then
      s.items.map (fun it => ⟨enhance s it, streamFrequency s, streamFrequency s⟩)
    else [])

/-- The items inserted right after the `k`-th base item: every scheduled item
whose `nextInsertAt` equals the count of base items emitted so far, in
`frequencyItems` order. -/
def insertDue (k : Int) (fis : List FreqItem) : List EnhancedStreamItem :=
  fis.filterMap (fun fi => if fi.nextInsertAt = k then some fi.item else none)

/-- Models `freqItem.nextInsertAt += freqItem.frequency` for every matching entry. -/
def advanceDue (k : Int) (fis : List FreqItem) : List FreqItem :=
  fis.map (fun fi =>
    if fi.nextInsertAt = k then { fi with nextInsertAt := fi.nextInsertAt + fi.frequency }
    else fi)

/-- The `while (baseIndex < baseItems.length)` loop: emit the next base item,
increment the emitted count, then emit and advance every due scheduled item. -/
def interleave : List EnhancedStreamItem → Int → List FreqItem → List EnhancedStreamItem
  | [], _, _ => []
  | b :: rest, k, fis =>
    b :: (insertDue (k + 1) fis ++ interleave rest (k + 1) (advanceDue (k + 1) fis))

/-- Source `buildPlaybackSequence(streams, shuffle)`.  The call to the RNG-backed
`shuffleArray` is abstracted as the parameter `shuffleFn` (applied exactly when
`shuffle && baseItems.length > 0`, before any insertion); with
`shuffle = false` the function is exactly the deterministic source path. -/
def buildPlaybackSequence (streams : List StreamWithItems) (shuffle : Bool)
    (shuffleFn : List EnhancedStreamItem → List EnhancedStreamItem) :
    List EnhancedStreamItem :=
  let baseItems0 := baseItemsOf streams
  let baseItems := if shuffle && baseItems0.length > 0 then shuffleFn baseItems0 else baseItems0
  if baseItems.length = 0 then
    (freqStreamsOf streams).flatMap (fun s => s.items.map (enhance s))
  else
    interleave baseItems 0 (freqItemsOf streams)

/-- How many insertions one scheduled entry performs while the next `n` base
items are emitted, starting from emitted-count `k` with `nextInsertAt = a` and
frequency `f` (the per-entry projection of the loop body). -/
def insCount : Nat → Int → Int → Int → Nat
  | 0, _, _, _ => 0
  | n + 1, k, a, f =>
    (if a = k + 1 then 1 else 0) + insCount n (k + 1) (if a = k + 1 then a + f else a) f

/-- Spec-side description of the insertion positions for one interstitial item
(written from the words of the spec, for comparison with `interleave`): the
interstitial item appears immediately after the `F`-th, `2F`-th, …,
`(⌊N/F⌋·F)`-th base item and nowhere else — groups of `F` base items each
followed by the item, then the leftover base items. -/
def specInsert (base : List EnhancedStreamItem) (x : EnhancedStreamItem) (F : Nat) :
    List EnhancedStreamItem :=
  ((List.range (base.length / F)).flatMap (fun i => (base.drop (i * F)).take F ++ [x]))
    ++ base.drop ((base.length / F) * F)

/-! ## Preview playback state machine (display page) -/

/-- The display state the command reducer touches:
`currentIndex`, `isPlaying`, `isBlackScreen`. -/
structure PreviewState where
  currentIndex : Int
  isPlaying : Bool
  isBlackScreen : Bool
deriving DecidableEq, Repr

/-- Source `handleCommand(command, payload)` as a pure reducer over the display
state, with `len` the current `allItems.length` and `loop` the
`slideshow?.settings?.loop` flag.  The `reload` command performs
`window.location.reload()`, an external effect that changes none of the three
state fields; unknown commands fall through the `switch` (no-op). -/
def handleCommand (cmd : String) (len : Nat) (loop : Bool) (st : PreviewState) : PreviewState :=
  if cmd = "next" then
    let nextIndex := st.currentIndex + 1
    if nextIndex ≥ (len : Int) then
      if loop then { st with currentIndex := 0 }
      else { st with isPlaying := false }
    else { st with currentIndex := nextIndex }
  else if cmd = "previous" then
    let prevIndex := st.currentIndex - 1
    if prevIndex < 0 then { st with currentIndex := (len : Int) - 1 }
    else { st with currentIndex := prevIndex }
  else if cmd = "play" then { st with isPlaying := true }
  else if cmd = "pause" then { st with isPlaying := false }
  else if cmd = "reload" then st
  else if cmd = "black-screen" then { st with isBlackScreen := true }
  else if cmd = "show-screen" then { st with isBlackScreen := false }
  else st

/-- The local `handleNext` helper: returns immediately when `allItems` is
empty, otherwise advances with the loop/clamp-and-pause rule. -/
def handleNext (len : Nat) (loop : Bool) (st : PreviewState) : PreviewState :=
  if len = 0 then st
  else
    let nextIndex := st.currentIndex + 1
    if nextIndex ≥ (len : Int) then
      if loop then { st with currentIndex := 0 }
      else { st with isPlaying := false }
    else { st with currentIndex := nextIndex }

/-- The local `handlePrevious` helper: returns immediately when `allItems` is
empty, otherwise decrements with unconditional wraparound. -/
def handlePrevious (len : Nat) (st : PreviewState) : PreviewState :=
  if len = 0 then st
  else
    let prevIndex := st.currentIndex - 1
    if prevIndex < 0 then { st with currentIndex := (len : Int) - 1 }
    else { st with currentIndex := prevIndex }

/-! ## Channel services (command / status / heartbeat) -/

/-- The connection states of a relay channel object. -/
inductive ChanState
  | closed
  | errored
  | joined
  | joining
  | leaving
deriving DecidableEq, Repr

/-- A relay channel handle: its connection state and its
`config.broadcast.self` flag fixed at creation. -/
structure RealtimeChannel where
  state : ChanState
  selfBroadcast : Bool
deriving DecidableEq, Repr

/-- The command topic template, prefix `slideshow:`, suffix `:commands`. -/
def commandChannelName (slideshowId : String) : String :=
  "slideshow:" ++ slideshowId ++ ":commands"

/-- The status topic template, prefix `slideshow:`, suffix `:status`. -/
def statusChannelName (slideshowId : String) : String :=
  "slideshow:" ++ slideshowId ++ ":status"

/-- The heartbeat topic template, prefix `slideshow:`, suffix `:heartbeat`. -/
def heartbeatChannelName (slideshowId : String) : String :=
  "slideshow:" ++ slideshowId ++ ":heartbeat"

/-- Source `getCommandChannel`: return the cached handle for the topic, or create one
(with `broadcast.self = true`, a fresh channel starts `closed`) and cache it.
The cache is modelled as the slot of the one topic the call touches. -/
def getCommandChannel (cache : Option RealtimeChannel) :
    RealtimeChannel × Option RealtimeChannel :=
  match cache with
  | some ch => (ch, some ch)
  | none => (⟨ChanState.closed, true⟩, some ⟨ChanState.closed, true⟩)

/-- Source `getStatusChannel`: like `getCommandChannel` but with
`broadcast.self = false`. -/
def getStatusChannel (cache : Option RealtimeChannel) :
    RealtimeChannel × Option RealtimeChannel :=
  match cache with
  | some ch => (ch, some ch)
  | none => (⟨ChanState.closed, false⟩, some ⟨ChanState.closed, false⟩)

/-- Source `getHeartbeatChannel`: like `getStatusChannel`
(`broadcast.self = false`). -/
def getHeartbeatChannel (cache : Option RealtimeChannel) :
    RealtimeChannel × Option RealtimeChannel :=
  match cache with
  | some ch => (ch, some ch)
  | none => (⟨ChanState.closed, false⟩, some ⟨ChanState.closed, false⟩)

/-- The first decisive event of the join handshake race: the subscribe
callback reports `SUBSCRIBED`, or one of the failure statuses
(`CHANNEL_ERROR` / `TIMED_OUT` / `CLOSED`), or the 5000 ms `setTimeout`
fires first. -/
inductive JoinOutcome
  | subscribed
  | chanError
  | timedOut
  | closedStatus
  | timerExpired
deriving DecidableEq, Repr

/-- Result of the guard that awaits a subscribe promise whenever the channel
state differs from `joined`: did the awaited promise resolve, and was the
handle deleted from the cache map. -/
structure JoinResult where
  success : Bool
  evict : Bool
deriving DecidableEq, Repr

/-- The publish-before-join guard shared by `sendCommand`, `broadcastStatus`
and `sendHeartbeat`: a handle already `joined` skips the wait; otherwise the
promise resolves on `SUBSCRIBED`, rejects *and deletes the cache entry* on a
failure status, and rejects *without touching the cache* when the 5-second
timer fires first. -/
def ensureJoined (ch : RealtimeChannel) (jo : JoinOutcome) : JoinResult :=
  if ch.state = ChanState.joined then ⟨true, false⟩
  else
    match jo with
    | JoinOutcome.subscribed => ⟨true, false⟩
    | JoinOutcome.chanError => ⟨false, true⟩
    | JoinOutcome.timedOut => ⟨false, true⟩
    | JoinOutcome.closedStatus => ⟨false, true⟩
    | JoinOutcome.timerExpired => ⟨false, false⟩

/-- Observable effects of a service call. -/
inductive Effect
  | logInsert (slideshowId command : String)
  | logErrorReported
  | broadcast (topic event : String)
deriving DecidableEq, Repr

/-- What a publish call returned: its effect trace in order, whether the
promise resolved, and the cache slot afterwards. -/
structure CallResult where
  effects : List Effect
  ok : Bool
  cacheAfter : Option RealtimeChannel
deriving DecidableEq, Repr

/-- Source `sendCommand(slideshowId, command, payload)`: insert the command into the
`slideshow_commands` table first (`dbError` is only reported via
`console.error`), get-or-create the command channel, run the
publish-before-join guard, then broadcast the `command` event.  On a
successful handshake the relay client leaves the cached handle `joined`. -/
def sendCommand (slideshowId command : String) (dbError : Bool)
    (cache : Option RealtimeChannel) (jo : JoinOutcome) : CallResult :=
  let logFx := Effect.logInsert slideshowId command ::
    (if dbError then [Effect.logErrorReported] else [])
  let pair := getCommandChannel cache
  let ch := pair.1
  let jr := ensureJoined ch jo
  if jr.success then
    ⟨logFx ++ [Effect.broadcast (commandChannelName slideshowId) "command"], true,
      some { ch with state := ChanState.joined }⟩
  else
    ⟨logFx, false, if jr.evict then none else pair.2⟩

/-- Source `broadcastStatus(slideshowId, status)`: get-or-create the status channel,
run the publish-before-join guard, then broadcast the `status` event. -/
def broadcastStatus (slideshowId : String) (cache : Option RealtimeChannel)
    (jo : JoinOutcome) : CallResult :=
  let pair := getStatusChannel cache
  let ch := pair.1
  let jr := ensureJoined ch jo
  if jr.success then
    ⟨[Effect.broadcast (statusChannelName slideshowId) "status"], true,
      some { ch with state := ChanState.joined }⟩
  else
    ⟨[], false, if jr.evict then none else pair.2⟩

/-- Source `sendHeartbeat(slideshowId)`: get-or-create the heartbeat channel, run the
publish-before-join guard, then broadcast the `heartbeat` event. -/
def sendHeartbeat (slideshowId : String) (cache : Option RealtimeChannel)
    (jo : JoinOutcome) : CallResult :=
  let pair := getHeartbeatChannel cache
  let ch := pair.1
  let jr := ensureJoined ch jo
  if jr.success then
    ⟨[Effect.broadcast (heartbeatChannelName slideshowId) "heartbeat"], true,
      some { ch with state := ChanState.joined }⟩
  else
    ⟨[], false, if jr.evict then none else pair.2⟩

/-- What a subscribe operation listens on: the topic it joins and the single
broadcast event name it registers a handler for. -/
structure SubscribeSpec where
  topic : String
  event : String
deriving DecidableEq, Repr

/-- Source `subscribeToCommands` registers a broadcast listener for the
single event `command` on the command topic. -/
def subscribeToCommandsSpec (slideshowId : String) : SubscribeSpec :=
  ⟨commandChannelName slideshowId, "command"⟩

/-- Source `subscribeToStatus` registers a broadcast listener for the
single event `status` on the status topic. -/
def subscribeToStatusSpec (slideshowId : String) : SubscribeSpec :=
  ⟨statusChannelName slideshowId, "status"⟩

/-- Source `subscribeToHeartbeat` registers a broadcast listener for the
single event `heartbeat` on the heartbeat topic. -/
def subscribeToHeartbeatSpec (slideshowId : String) : SubscribeSpec :=
  ⟨heartbeatChannelName slideshowId, "heartbeat"⟩

/-! ## Controller-side liveness (`RemoteControl`) -/

/-- The literal `10000` — the `timeSinceHeartbeat < 10000` threshold. -/
def livenessTimeoutMs : Int := 10000

/-- The literal `1000` — the poll period passed to `setInterval`. -/
def pollIntervalMs : Int := 1000

/-- The controller state the heartbeat logic touches: `lastHeartbeat`
(initially `null`) and `isPreviewActive` (initially `false`). -/
structure RemoteState where
  lastHeartbeat : Option Int
  isPreviewActive : Bool
deriving DecidableEq, Repr

/-- Initial values `useState(null)` and `useState(false)`. -/
def initialRemoteState : RemoteState := ⟨none, false⟩

/-- The heartbeat subscription handler:
`setLastHeartbeat(timestamp); setIsPreviewActive(true)`. -/
def onHeartbeat (ts : Int) (_s : RemoteState) : RemoteState := ⟨some ts, true⟩

/-- One firing of the 1-second interval at wall clock `now`:
`if (lastHeartbeat) setIsPreviewActive(Date.now() - lastHeartbeat < 10000)`. -/
def pollTick (now : Int) (s : RemoteState) : RemoteState :=
  match s.lastHeartbeat with
  | none => s
  | some t => { s with isPreviewActive := decide (now - t < livenessTimeoutMs) }

/-- The two inbound events of the liveness logic on the controller. -/
inductive RemoteEvent
  | heartbeat (ts : Int)
  | tick (now : Int)
deriving DecidableEq, Repr

/-- Dispatch one event. -/
def remoteStep (s : RemoteState) : RemoteEvent → RemoteState
  | RemoteEvent.heartbeat ts => onHeartbeat ts s
  | RemoteEvent.tick now => pollTick now s

/-- Run a sequence of events. -/
def remoteRun (s : RemoteState) (evs : List RemoteEvent) : RemoteState :=
  evs.foldl remoteStep s

/-! ## Concrete fixtures (for witnesses and counterexamples) -/

/-- Builds `n` photo items with ids `0` … `n-1`. -/
def sampleItems (n : Nat) : List StreamItem :=
  (List.range n).map (fun i => ⟨toString i, (i : Int)⟩)

/-- A primary (type `slideshow`) stream with `n` items. -/
def samplePrimary (n : Nat) : StreamWithItems :=
  ⟨StreamType.slideshow, some ⟨some 5, none⟩, sampleItems n⟩

/-- A single-photo interstitial stream with the one item `X` and the
given configured frequency. -/
def sampleInterstitial (f : Int) : StreamWithItems :=
  ⟨StreamType.singlePhoto, some ⟨some 10, some f⟩, [⟨"X", 0⟩]⟩

/-- The enhanced form of the interstitial item `X` at frequency `f`. -/
def sampleX (f : Int) : EnhancedStreamItem :=
  enhance (sampleInterstitial f) ⟨"X", 0⟩

/-- A handle stuck mid-handshake (state `joining`), as cached by a command
topic (`broadcast.self = true`). -/
def stuckCommandChannel : RealtimeChannel := ⟨ChanState.joining, true⟩

end StreamingSlides

namespace StreamingSlides

/-! ## Sequencer lemmas -/

lemma sum_map_add_nat {α : Type} (l : List α) (f g : α → Nat) :
    (l.map (fun x => f x + g x)).sum = (l.map f).sum + (l.map g).sum := by
  induction l with
  | nil => simp
  | cons a l ih => simp [ih]; omega

lemma insertDue_length (k : Int) (fis : List FreqItem) :
    (insertDue k fis).length =
      (fis.map (fun fi => if fi.nextInsertAt = k then 1 else 0)).sum := by
  induction fis with
  | nil => rfl
  | cons fi fis ih =>
    simp only [insertDue, List.filterMap_cons] at ih ⊢
    by_cases h : fi.nextInsertAt = k <;> simp [h] <;> omega

lemma interleave_length (base : List EnhancedStreamItem) :
    ∀ (k : Int) (fis : List FreqItem),
      (interleave base k fis).length =
        base.length +
          (fis.map (fun fi => insCount base.length k fi.nextInsertAt fi.frequency)).sum := by
  induction base with
  | nil => intro k fis; simp [interleave, insCount]
  | cons b rest ih =>
    intro k fis
    simp only [interleave, List.length_cons, List.length_append,
      insertDue_length, ih (k + 1) (advanceDue (k + 1) fis)]
    rw [show (advanceDue (k + 1) fis).map
          (fun fi => insCount rest.length (k + 1) fi.nextInsertAt fi.frequency)
        = fis.map (fun fi =>
            insCount rest.length (k + 1)
              (if fi.nextInsertAt = k + 1 then fi.nextInsertAt + fi.frequency
               else fi.nextInsertAt) fi.frequency) by
      simp only [advanceDue, List.map_map]
      refine List.map_congr_left ?_
      intro fi _
      by_cases h : fi.nextInsertAt = k + 1 <;> simp [h]]
    rw [show fis.map (fun fi => insCount (rest.length + 1) k fi.nextInsertAt fi.frequency)
        = fis.map (fun fi =>
            (if fi.nextInsertAt = k + 1 then 1 else 0) +
              insCount rest.length (k + 1)
                (if fi.nextInsertAt = k + 1 then fi.nextInsertAt + fi.frequency
                 else fi.nextInsertAt) fi.frequency) by
      refine List.map_congr_left ?_
      intro fi _
      rfl]
    rw [sum_map_add_nat]
    omega

lemma insCount_zero_of_le (n : Nat) :
    ∀ (k a f : Int), a ≤ k → insCount n k a f = 0 := by
  induction n with
  | zero => intro k a f _; rfl
  | succ n ih =>
    intro k a f h
    have hne : ¬ a = k + 1 := by omega
    simp only [insCount, hne, if_false, Nat.zero_add]
    exact ih (k + 1) a f (by omega)

lemma insCount_closed (F : Nat) (hF : 0 < F) (n : Nat) :
    ∀ (k : Int) (d : Nat), 0 < d →
      insCount n k (k + (d : Int)) (F : Int) = (n + F - d) / F := by
  induction n with
  | zero =>
    intro k d hd
    have : F - d < F := by omega
    simp only [insCount, Nat.zero_add]
    exact (Nat.div_eq_of_lt this).symm
  | succ n ih =>
    intro k d hd
    by_cases h1 : d = 1
    · subst h1
      have e1 : insCount (n + 1) k (k + ((1 : Nat) : Int)) (F : Int)
          = 1 + insCount n (k + 1) (k + 1 + (F : Int)) (F : Int) := by
        simp [insCount]
      rw [e1, ih (k + 1) F hF]
      have h2 : n + F - F = n := by omega
      have h3 : n + 1 + F - 1 = n + F := by omega
      rw [h2, h3, Nat.add_div_right n hF]
      omega
    · have hcond : ¬ (k + (d : Int) = k + 1) := by
        intro h; omega
      simp only [insCount, hcond, if_false, Nat.zero_add]
      have hshift : k + (d : Int) = (k + 1) + ((d - 1 : Nat) : Int) := by
        omega
      rw [hshift, ih (k + 1) (d - 1) (by omega)]
      have hnum : n + F - (d - 1) = n + 1 + F - d := by omega
      rw [hnum]

/-- Every scheduled entry starts with `nextInsertAt = frequency`. -/
lemma freqItemsOf_nextInsertAt (streams : List StreamWithItems) :
    ∀ fi ∈ freqItemsOf streams, fi.nextInsertAt = fi.frequency := by
  intro fi hfi
  simp only [freqItemsOf, List.mem_flatMap] at hfi
  obtain ⟨s, _, hmem⟩ := hfi
  split at hmem
  · simp only [List.mem_map] at hmem
    obtain ⟨it, _, rfl⟩ := hmem
    rfl
  · simp at hmem

/-- If no interstitial stream has any item, the empty-base branch returns
the empty list. -/
lemma freqStreams_flatMap_nil (ss : List StreamWithItems)
    (h : ss.flatMap (fun s =>
      if s.items.length > 0 then
        s.items.map (fun it =>
          (⟨enhance s it, streamFrequency s, streamFrequency s⟩ : FreqItem))
      else []) = []) :
    ss.flatMap (fun s => s.items.map (enhance s)) = [] := by
  induction ss with
  | nil => rfl
  | cons s ss ih =>
    simp only [List.flatMap_cons, List.append_eq_nil] at h ⊢
    obtain ⟨h1, h2⟩ := h
    refine ⟨?_, ih h2⟩
    by_cases hlen : s.items.length > 0
    · rw [if_pos hlen] at h1
      simp only [List.map_eq_nil_iff] at h1
      simp [h1]
    · have : s.items = [] := List.length_eq_zero.mp (by omega)
      simp [this]

/-- C1: for every stream set whose interstitial frequencies `F` all satisfy
`1 ≤ F ≤ N` (`N` the total primary-item count), the sequence built by
`buildPlaybackSequence` has length `N` plus, for every interstitial item,
`⌊N / F⌋` insertions of that item (`shuffleFn` is only assumed to preserve
the base length, which any permutation does). -/
theorem sequencer_length_invariant (streams : List StreamWithItems) (shuffle : Bool)
    (shuffleFn : List EnhancedStreamItem → List EnhancedStreamItem)
    (hperm : (shuffleFn (baseItemsOf streams)).length = (baseItemsOf streams).length)
    (hF : ∀ fi ∈ freqItemsOf streams,
      1 ≤ fi.frequency ∧ fi.frequency ≤ ((baseItemsOf streams).length : Int)) :
    (buildPlaybackSequence streams shuffle shuffleFn).length =
      (baseItemsOf streams).length +
        ((freqItemsOf streams).map
          (fun fi => (baseItemsOf streams).length / fi.frequency.toNat)).sum := by
  by_cases h0 : (baseItemsOf streams).length = 0
  · have hfreq : freqItemsOf streams = [] := by
      cases hfe : freqItemsOf streams with
      | nil => rfl
      | cons fi rest =>
        have hmem := hF fi (by rw [hfe]; exact List.mem_cons_self fi rest)
        rw [h0] at hmem
        omega
    have hbranch : (freqStreamsOf streams).flatMap (fun s => s.items.map (enhance s)) = [] :=
      freqStreams_flatMap_nil (freqStreamsOf streams) hfreq
    simp [buildPlaybackSequence, h0, hbranch, hfreq]
  · have hmap : (freqItemsOf streams).map
        (fun fi => insCount (baseItemsOf streams).length 0 fi.nextInsertAt fi.frequency) =
      (freqItemsOf streams).map
        (fun fi => (baseItemsOf streams).length / fi.frequency.toNat) := by
      refine List.map_congr_left ?_
      intro fi hfi
      have hins := freqItemsOf_nextInsertAt streams fi hfi
      obtain ⟨hf1, _⟩ := hF fi hfi
      have htn : ((fi.frequency.toNat : Nat) : Int) = fi.frequency :=
        Int.toNat_of_nonneg (by omega)
      have hpos : 0 < fi.frequency.toNat := by omega
      have hcl := insCount_closed fi.frequency.toNat hpos
        (baseItemsOf streams).length 0 fi.frequency.toNat hpos
      rw [zero_add] at hcl
      rw [hins, ← htn, hcl]
      congr 1
      omega
    cases hsh : shuffle with
    | false =>
      have : buildPlaybackSequence streams false shuffleFn =
          interleave (baseItemsOf streams) 0 (freqItemsOf streams) := by
        simp [buildPlaybackSequence, h0]
      rw [this, interleave_length, hmap]
    | true =>
      have hlen : (shuffleFn (baseItemsOf streams)).length ≠ 0 := by
        rw [hperm]; exact h0
      have : buildPlaybackSequence streams true shuffleFn =
          interleave (shuffleFn (baseItemsOf streams)) 0 (freqItemsOf streams) := by
        simp [buildPlaybackSequence, h0, hlen, Nat.pos_of_ne_zero h0]
      rw [this, interleave_length, hperm, hmap]

/-- Witness for `sequencer_length_invariant`: 20 primary items and one
interstitial item at frequency 5. -/
theorem sequencer_length_invariant_witness :
    (buildPlaybackSequence [samplePrimary 20, sampleInterstitial 5] false id).length =
      (baseItemsOf [samplePrimary 20, sampleInterstitial 5]).length +
        ((freqItemsOf [samplePrimary 20, sampleInterstitial 5]).map
          (fun fi =>
            (baseItemsOf [samplePrimary 20, sampleInterstitial 5]).length /
              fi.frequency.toNat)).sum :=
  sequencer_length_invariant _ false id rfl (by decide)

lemma interleave_no_due (base : List EnhancedStreamItem) :
    ∀ (k : Int) (fis : List FreqItem), (∀ fi ∈ fis, fi.nextInsertAt ≤ k) →
      interleave base k fis = base := by
  induction base with
  | nil => intro k fis _; rfl
  | cons b rest ih =>
    intro k fis h
    have hdue : insertDue (k + 1) fis = [] := by
      simp only [insertDue, List.filterMap_eq_nil_iff]
      intro fi hfi
      have := h fi hfi
      simp [show ¬ fi.nextInsertAt = k + 1 by omega]
    have hadv : advanceDue (k + 1) fis = fis := by
      unfold advanceDue
      have hpt : ∀ fi ∈ fis,
          (if fi.nextInsertAt = k + 1 then
            { fi with nextInsertAt := fi.nextInsertAt + fi.frequency } else fi) = id fi := by
        intro fi hfi
        have := h fi hfi
        simp [show ¬ fi.nextInsertAt = k + 1 by omega]
      rw [List.map_congr_left hpt, List.map_id]
    rw [interleave, hdue, hadv, List.nil_append,
      ih (k + 1) fis (fun fi hfi => le_trans (h fi hfi) (by omega))]

/-- C2 (amended): with a non-empty base, a stream whose configured frequency
is `0` or negative never has its items inserted — the build (a structurally
decreasing loop, hence terminating, with no division anywhere) returns
exactly the base items when every interstitial frequency is nonpositive. -/
theorem freq_nonpositive_never_inserted (streams : List StreamWithItems)
    (shuffleFn : List EnhancedStreamItem → List EnhancedStreamItem)
    (hne : baseItemsOf streams ≠ [])
    (hf : ∀ fi ∈ freqItemsOf streams, fi.frequency ≤ 0) :
    buildPlaybackSequence streams false shuffleFn = baseItemsOf streams := by
  have h0 : (baseItemsOf streams).length ≠ 0 := by
    simpa [List.length_eq_zero] using hne
  have hbuild : buildPlaybackSequence streams false shuffleFn =
      interleave (baseItemsOf streams) 0 (freqItemsOf streams) := by
    simp [buildPlaybackSequence, h0]
  rw [hbuild]
  refine interleave_no_due _ 0 _ ?_
  intro fi hfi
  rw [freqItemsOf_nextInsertAt streams fi hfi]
  exact hf fi hfi

/-- Witness for `freq_nonpositive_never_inserted`: two primary items, one
interstitial item configured with frequency `0`. -/
theorem freq_nonpositive_never_inserted_witness :
    buildPlaybackSequence [samplePrimary 2, sampleInterstitial 0] false id =
      baseItemsOf [samplePrimary 2, sampleInterstitial 0] :=
  freq_nonpositive_never_inserted _ id (by decide) (by decide)

/-- C2 counterexample: with frequency `0` the interstitial item is *not*
inserted after every base position — it never appears in the output at all
(two base items in, two items out). -/
theorem freq_zero_not_every_position :
    (buildPlaybackSequence [samplePrimary 2, sampleInterstitial 0] false id).length = 2 ∧
      sampleX 0 ∉ buildPlaybackSequence [samplePrimary 2, sampleInterstitial 0] false id := by
  decide

lemma interleave_single_peel (x : EnhancedStreamItem) (f : Int) :
    ∀ (d : Nat) (base : List EnhancedStreamItem) (k : Int), 0 < d →
      interleave base k [⟨x, f, k + (d : Int)⟩] =
        if base.length < d then base
        else base.take d ++ x ::
          interleave (base.drop d) (k + (d : Int)) [⟨x, f, k + (d : Int) + f⟩] := by
  intro d
  induction d with
  | zero => intro base k h; omega
  | succ d ih =>
    intro base k _
    cases base with
    | nil =>
      rw [if_pos (by simp)]
      rfl
    | cons b rest =>
      by_cases hd : d = 0
      · subst hd
        have hc : k + ((1 : Nat) : Int) = k + 1 := by norm_num
        rw [if_neg (by simp)]
        simp only [interleave, insertDue, advanceDue, List.filterMap_cons,
          List.filterMap_nil, List.map_cons, List.map_nil, hc, if_pos rfl,
          List.take_succ_cons, List.take_zero, List.drop_succ_cons, List.drop_zero,
          List.singleton_append, List.cons_append, List.nil_append]
        simp
      · have hne1 : ¬ (k + ((d + 1 : Nat) : Int) = k + 1) := by
          push_cast
          omega
        have lhs_eq : interleave (b :: rest) k [⟨x, f, k + ((d + 1 : Nat) : Int)⟩] =
            b :: interleave rest (k + 1) [⟨x, f, (k + 1) + ((d : Nat) : Int)⟩] := by
          simp only [interleave, insertDue, advanceDue, List.filterMap_cons,
            List.filterMap_nil, List.map_cons, List.map_nil, hne1, if_false,
            List.nil_append]
          have : k + ((d + 1 : Nat) : Int) = (k + 1) + ((d : Nat) : Int) := by
            push_cast
            ring
          rw [this]
        rw [lhs_eq, ih rest (k + 1) (by omega)]
        by_cases hlen : rest.length < d
        · rw [if_pos hlen, if_pos (by simp; omega)]
        · rw [if_neg hlen, if_neg (by simp; omega)]
          simp only [List.take_succ_cons, List.drop_succ_cons, List.cons_append]
          have h1 : (k + 1) + ((d : Nat) : Int) = k + ((d + 1 : Nat) : Int) := by
            push_cast
            ring
          rw [h1]

lemma flatMap_congr_left {α β : Type} (l : List α) (f g : α → List β)
    (h : ∀ a ∈ l, f a = g a) : l.flatMap f = l.flatMap g := by
  induction l with
  | nil => rfl
  | cons a l ih =>
    simp only [List.flatMap_cons, h a (List.mem_cons_self a l)]
    rw [ih (fun b hb => h b (List.mem_cons_of_mem a hb))]

lemma specInsert_peel (base : List EnhancedStreamItem) (x : EnhancedStreamItem)
    (F : Nat) (hF : 0 < F) (hle : F ≤ base.length) :
    specInsert base x F = base.take F ++ x :: specInsert (base.drop F) x F := by
  have hlen : (base.drop F).length = base.length - F := by simp
  have hdiv : base.length / F = (base.length - F) / F + 1 := Nat.div_eq_sub_div hF hle
  unfold specInsert
  rw [hlen, hdiv, List.range_succ_eq_map, List.flatMap_cons, List.flatMap_map]
  simp only [Nat.zero_mul, List.drop_zero, Function.comp]
  rw [flatMap_congr_left (List.range ((base.length - F) / F))
      (fun xx => (base.drop (Nat.succ xx * F)).take F ++ [x])
      (fun i => (base.drop (F + i * F)).take F ++ [x]) ?chunkL]
  case chunkL =>
    intro i _
    show (base.drop (Nat.succ i * F)).take F ++ [x] = (base.drop (F + i * F)).take F ++ [x]
    rw [Nat.succ_mul, Nat.add_comm]
  rw [flatMap_congr_left (List.range ((base.length - F) / F))
      (fun i => ((base.drop F).drop (i * F)).take F ++ [x])
      (fun i => (base.drop (F + i * F)).take F ++ [x]) ?chunkR]
  case chunkR =>
    intro i _
    show ((base.drop F).drop (i * F)).take F ++ [x] = (base.drop (F + i * F)).take F ++ [x]
    rw [List.drop_drop]
  rw [show ((base.length - F) / F + 1) * F = F + (base.length - F) / F * F by
      rw [Nat.succ_mul, Nat.add_comm]]
  rw [List.drop_drop]
  simp only [List.append_assoc, List.singleton_append, List.cons_append,
    List.nil_append]

lemma interleave_single_spec (x : EnhancedStreamItem) (F : Nat) (hF : 0 < F) :
    ∀ (q : Nat) (base : List EnhancedStreamItem) (k : Int), base.length / F = q →
      interleave base k [⟨x, (F : Int), k + (F : Int)⟩] = specInsert base x F := by
  intro q
  induction q with
  | zero =>
    intro base k hq
    have hlt : base.length < F := (Nat.div_eq_zero_iff hF).mp hq
    rw [interleave_single_peel x (F : Int) F base k hF, if_pos hlt]
    unfold specInsert
    rw [hq]
    simp
  | succ q ih =>
    intro base k hq
    have hle : F ≤ base.length := by
      by_contra hlt
      rw [(Nat.div_eq_zero_iff hF).mpr (by omega)] at hq
      omega
    have hdrop : (base.drop F).length / F = q := by
      have hsub : base.length / F = (base.length - F) / F + 1 := Nat.div_eq_sub_div hF hle
      rw [hq] at hsub
      have hlen : (base.drop F).length = base.length - F := by simp
      rw [hlen]
      omega
    rw [interleave_single_peel x (F : Int) F base k hF, if_neg (by omega),
      specInsert_peel base x F hF hle, ih (base.drop F) (k + (F : Int)) hdrop]

/-- C5: for a non-empty base and a single scheduled interstitial item of
frequency `F` with `1 ≤ F ≤ N`, the built sequence is exactly the base with
the item spliced in immediately after the `F`-th, `2F`-th, …,
`(⌊N/F⌋·F)`-th base item and nowhere else (`specInsert`). -/
theorem insertion_positions (streams : List StreamWithItems)
    (shuffleFn : List EnhancedStreamItem → List EnhancedStreamItem)
    (x : EnhancedStreamItem) (F : Nat) (hF1 : 1 ≤ F)
    (_hFN : F ≤ (baseItemsOf streams).length)
    (hne : baseItemsOf streams ≠ [])
    (hfi : freqItemsOf streams = [⟨x, (F : Int), (F : Int)⟩]) :
    buildPlaybackSequence streams false shuffleFn =
      specInsert (baseItemsOf streams) x F := by
  have h0 : (baseItemsOf streams).length ≠ 0 := by
    simpa [List.length_eq_zero] using hne
  have hbuild : buildPlaybackSequence streams false shuffleFn =
      interleave (baseItemsOf streams) 0 (freqItemsOf streams) := by
    simp [buildPlaybackSequence, h0]
  have hfi0 : (⟨x, (F : Int), (F : Int)⟩ : FreqItem) =
      ⟨x, (F : Int), 0 + (F : Int)⟩ := by
    norm_num
  rw [hbuild, hfi, hfi0]
  exact interleave_single_spec x F hF1 ((baseItemsOf streams).length / F)
    (baseItemsOf streams) 0 rfl

/-- Witness for `insertion_positions`: `N = 20`, `F = 5` — the interstitial
item lands immediately after base positions 5, 10, 15, 20 (4 insertions). -/
theorem insertion_positions_witness :
    buildPlaybackSequence [samplePrimary 20, sampleInterstitial 5] false id =
      specInsert (baseItemsOf [samplePrimary 20, sampleInterstitial 5]) (sampleX 5) 5 :=
  insertion_positions _ id (sampleX 5) 5 (by decide) (by decide) (by decide) (by decide)

/-! ## Command reducer claims -/

/-- C4: on a non-empty sequence of length `L`, `next` at index `L - 1` wraps
to `0` when looping is enabled, and leaves the index unchanged while pausing
when looping is disabled; `previous` at index `0` wraps to `L - 1`
unconditionally. -/
theorem command_wraparound (L : Nat) (st : PreviewState) (_hL : 0 < L) :
    (st.currentIndex = (L : Int) - 1 →
      (handleCommand "next" L true st).currentIndex = 0 ∧
      (handleCommand "next" L false st).currentIndex = st.currentIndex ∧
      (handleCommand "next" L false st).isPlaying = false) ∧
    (∀ loop : Bool, st.currentIndex = 0 →
      (handleCommand "previous" L loop st).currentIndex = (L : Int) - 1) := by
  constructor
  · intro hidx
    have hge : st.currentIndex + 1 ≥ (L : Int) := by omega
    refine ⟨?_, ?_, ?_⟩ <;> simp [handleCommand, if_pos hge]
  · intro loop hidx
    simp [handleCommand, hidx]

/-- Witness for `command_wraparound`: `L = 3`, index `2` for `next`, index `0`
for `previous`. -/
theorem command_wraparound_witness :
    ((handleCommand "next" 3 true ⟨2, true, false⟩).currentIndex = 0 ∧
      (handleCommand "next" 3 false ⟨2, true, false⟩).currentIndex = (⟨2, true, false⟩ :
        PreviewState).currentIndex ∧
      (handleCommand "next" 3 false ⟨2, true, false⟩).isPlaying = false) ∧
    (handleCommand "previous" 3 true ⟨0, true, false⟩).currentIndex = (3 : Int) - 1 :=
  ⟨(command_wraparound 3 ⟨2, true, false⟩ (by decide)).1 (by decide),
    (command_wraparound 3 ⟨0, true, false⟩ (by decide)).2 true (by decide)⟩

/-- C9: every command in {`next`, `previous`, `play`, `pause`, `black-screen`,
`show-screen`} applied by the command reducer of the display preserves
`0 ≤ currentIndex < length` on a non-empty item list. -/
theorem command_index_invariant (cmd : String) (L : Nat) (loop : Bool)
    (st : PreviewState)
    (hcmd : cmd ∈ (["next", "previous", "play", "pause",
      "black-screen", "show-screen"] : List String))
    (hL : 0 < L) (h0 : 0 ≤ st.currentIndex) (h1 : st.currentIndex < (L : Int)) :
    0 ≤ (handleCommand cmd L loop st).currentIndex ∧
      (handleCommand cmd L loop st).currentIndex < (L : Int) := by
  simp only [List.mem_cons, List.not_mem_nil, or_false] at hcmd
  rcases hcmd with rfl | rfl | rfl | rfl | rfl | rfl <;>
    · simp only [handleCommand]
      split_ifs <;> simp_all <;> omega

/-- Witness for `command_index_invariant`: `next` with `L = 2`, `loop = true`,
index `1`. -/
theorem command_index_invariant_witness :
    0 ≤ (handleCommand "next" 2 true ⟨1, true, false⟩).currentIndex ∧
      (handleCommand "next" 2 true ⟨1, true, false⟩).currentIndex < (2 : Int) :=
  command_index_invariant "next" 2 true ⟨1, true, false⟩ (by decide) (by decide)
    (by decide) (by decide)

/-- C10: with an empty item list and `currentIndex = 0`, the remote
`previous` command handler sets `currentIndex` to `-1` (out of bounds), while
the local `handlePrevious` helper returns the state unchanged. -/
theorem empty_list_previous_divergence (st : PreviewState) (loop : Bool)
    (h : st.currentIndex = 0) :
    (handleCommand "previous" 0 loop st).currentIndex = -1 ∧
      handlePrevious 0 st = st := by
  constructor
  · simp [handleCommand, h]
  · simp [handlePrevious]

/-- Witness for `empty_list_previous_divergence`: the initial display state
`{currentIndex := 0, isPlaying := false, isBlackScreen := false}`. -/
theorem empty_list_previous_divergence_witness :
    (handleCommand "previous" 0 false ⟨0, false, false⟩).currentIndex = -1 ∧
      handlePrevious 0 ⟨0, false, false⟩ = ⟨0, false, false⟩ :=
  empty_list_previous_divergence ⟨0, false, false⟩ false (by decide)

/-! ## Channel service claims -/

/-- C3 counterexample: the wire topic prefix is `slideshow:`, not `session:` —
sending a command for slideshow id `demo` broadcasts on
`slideshow:demo:commands` and on no `session:demo:commands` topic. -/
theorem topic_prefix_counterexample :
    Effect.broadcast "slideshow:demo:commands" "command"
        ∈ (sendCommand "demo" "next" false none JoinOutcome.subscribed).effects ∧
      Effect.broadcast "session:demo:commands" "command"
        ∉ (sendCommand "demo" "next" false none JoinOutcome.subscribed).effects := by
  decide

/-- C3 (amended): every publish and subscribe operation of the command,
status and heartbeat services uses exactly the topics
`slideshow:{slideshowId}:commands` / `:status` / `:heartbeat`, each carrying
the single event `command` / `status` / `heartbeat` respectively. -/
theorem relay_topic_names (slideshowId command : String) (dbError : Bool)
    (cache : Option RealtimeChannel) (jo : JoinOutcome) :
    ((sendCommand slideshowId command dbError cache jo).effects.all (fun e =>
      match e with
      | Effect.broadcast t ev =>
          t == "slideshow:" ++ slideshowId ++ ":commands" && ev == "command"
      | _ => true)) = true ∧
    ((broadcastStatus slideshowId cache jo).effects.all (fun e =>
      match e with
      | Effect.broadcast t ev =>
          t == "slideshow:" ++ slideshowId ++ ":status" && ev == "status"
      | _ => true)) = true ∧
    ((sendHeartbeat slideshowId cache jo).effects.all (fun e =>
      match e with
      | Effect.broadcast t ev =>
          t == "slideshow:" ++ slideshowId ++ ":heartbeat" && ev == "heartbeat"
      | _ => true)) = true ∧
    subscribeToCommandsSpec slideshowId =
      ⟨"slideshow:" ++ slideshowId ++ ":commands", "command"⟩ ∧
    subscribeToStatusSpec slideshowId =
      ⟨"slideshow:" ++ slideshowId ++ ":status", "status"⟩ ∧
    subscribeToHeartbeatSpec slideshowId =
      ⟨"slideshow:" ++ slideshowId ++ ":heartbeat", "heartbeat"⟩ := by
  refine ⟨?_, ?_, ?_, rfl, rfl, rfl⟩
  · by_cases hs : (ensureJoined (getCommandChannel cache).1 jo).success = true <;>
      cases dbError <;> simp [sendCommand, hs, commandChannelName]
  · by_cases hs : (ensureJoined (getStatusChannel cache).1 jo).success = true <;>
      simp [broadcastStatus, hs, statusChannelName]
  · by_cases hs : (ensureJoined (getHeartbeatChannel cache).1 jo).success = true <;>
      simp [sendHeartbeat, hs, heartbeatChannelName]

/-- C6 counterexample: when the 5-second timer fires before the handshake
settles, the publish call fails but the handle is *not* evicted — the cache
still holds the stuck handle afterwards. -/
theorem publish_timeout_no_eviction :
    (sendCommand "demo" "next" false (some stuckCommandChannel)
        JoinOutcome.timerExpired).ok = false ∧
      (sendCommand "demo" "next" false (some stuckCommandChannel)
        JoinOutcome.timerExpired).cacheAfter = some stuckCommandChannel := by
  decide

/-- C6 (amended): a publish (`sendCommand` / `broadcastStatus` /
`sendHeartbeat`) on a cached handle not in `joined` state first awaits the
join handshake bounded by the 5-second timer; on a handshake failure status
(`CHANNEL_ERROR` / `TIMED_OUT` / `CLOSED`) the handle is evicted from the
cache and the call fails, but when the 5-second timer fires first the call
fails with the handle left in the cache. -/
theorem publish_before_join_guard (slideshowId command : String) (dbError : Bool)
    (ch : RealtimeChannel) (jo : JoinOutcome) (hns : ch.state ≠ ChanState.joined) :
    ((jo = JoinOutcome.chanError ∨ jo = JoinOutcome.timedOut ∨
        jo = JoinOutcome.closedStatus) →
      ((sendCommand slideshowId command dbError (some ch) jo).ok = false ∧
        (sendCommand slideshowId command dbError (some ch) jo).cacheAfter = none) ∧
      ((broadcastStatus slideshowId (some ch) jo).ok = false ∧
        (broadcastStatus slideshowId (some ch) jo).cacheAfter = none) ∧
      ((sendHeartbeat slideshowId (some ch) jo).ok = false ∧
        (sendHeartbeat slideshowId (some ch) jo).cacheAfter = none)) ∧
    (jo = JoinOutcome.timerExpired →
      ((sendCommand slideshowId command dbError (some ch) jo).ok = false ∧
        (sendCommand slideshowId command dbError (some ch) jo).cacheAfter = some ch) ∧
      ((broadcastStatus slideshowId (some ch) jo).ok = false ∧
        (broadcastStatus slideshowId (some ch) jo).cacheAfter = some ch) ∧
      ((sendHeartbeat slideshowId (some ch) jo).ok = false ∧
        (sendHeartbeat slideshowId (some ch) jo).cacheAfter = some ch)) := by
  constructor
  · intro hjo
    rcases hjo with rfl | rfl | rfl <;>
      simp [sendCommand, broadcastStatus, sendHeartbeat, getCommandChannel,
        getStatusChannel, getHeartbeatChannel, ensureJoined, hns]
  · intro hjo
    subst hjo
    simp [sendCommand, broadcastStatus, sendHeartbeat, getCommandChannel,
      getStatusChannel, getHeartbeatChannel, ensureJoined, hns]

/-- Witness for `publish_before_join_guard`: a `joining` handle whose
handshake reports `CHANNEL_ERROR`. -/
theorem publish_before_join_guard_witness :
    ((sendCommand "demo" "next" false (some stuckCommandChannel)
        JoinOutcome.chanError).ok = false ∧
      (sendCommand "demo" "next" false (some stuckCommandChannel)
        JoinOutcome.chanError).cacheAfter = none) ∧
    ((broadcastStatus "demo" (some stuckCommandChannel)
        JoinOutcome.chanError).ok = false ∧
      (broadcastStatus "demo" (some stuckCommandChannel)
        JoinOutcome.chanError).cacheAfter = none) ∧
    ((sendHeartbeat "demo" (some stuckCommandChannel)
        JoinOutcome.chanError).ok = false ∧
      (sendHeartbeat "demo" (some stuckCommandChannel)
        JoinOutcome.chanError).cacheAfter = none) :=
  (publish_before_join_guard "demo" "next" false stuckCommandChannel
    JoinOutcome.chanError (by decide)).1 (Or.inl rfl)

/-- C8: `sendCommand` attempts the durable log write first (its first effect
is the `slideshow_commands` insert), and a log-write failure changes neither
whether the broadcast is attempted nor whether the call succeeds. -/
theorem command_log_best_effort (slideshowId command : String)
    (cache : Option RealtimeChannel) (jo : JoinOutcome) (dbError : Bool) :
    (sendCommand slideshowId command dbError cache jo).effects.head? =
        some (Effect.logInsert slideshowId command) ∧
      ((Effect.broadcast (commandChannelName slideshowId) "command" ∈
          (sendCommand slideshowId command true cache jo).effects) ↔
        (Effect.broadcast (commandChannelName slideshowId) "command" ∈
          (sendCommand slideshowId command false cache jo).effects)) ∧
      (sendCommand slideshowId command true cache jo).ok =
        (sendCommand slideshowId command false cache jo).ok := by
  by_cases hs : (ensureJoined (getCommandChannel cache).1 jo).success = true <;>
    cases dbError <;>
      simp [sendCommand, hs]

/-! ## Controller liveness claims -/

lemma remoteRun_ticks_none (ns : List Int) :
    remoteRun initialRemoteState (ns.map RemoteEvent.tick) = initialRemoteState := by
  induction ns with
  | nil => rfl
  | cons n ns ih =>
    simpa [remoteRun, remoteStep, pollTick, initialRemoteState] using ih

lemma remoteRun_ticks_lastHeartbeat (ns : List Int) :
    ∀ (ts : Int) (b : Bool),
      (remoteRun ⟨some ts, b⟩ (ns.map RemoteEvent.tick)).lastHeartbeat = some ts := by
  induction ns with
  | nil => intro ts b; rfl
  | cons n ns ih =>
    intro ts b
    simpa [remoteRun, remoteStep, pollTick] using ih ts _

/-- C7: `displayActive` is re-derived at each poll tick as
`now - lastHeartbeat < 10000`; a controller that has never received a
heartbeat stays inactive through any number of poll ticks; and once
heartbeats stop at time `ts`, any poll tick at time `≥ ts + 10 s` — whatever
ticks preceded it — leaves `displayActive = false`, so it stays false until a
new heartbeat arrives. -/
theorem heartbeat_liveness :
    (∀ (s : RemoteState) (t now : Int), s.lastHeartbeat = some t →
      (pollTick now s).isPreviewActive = decide (now - t < livenessTimeoutMs)) ∧
    (∀ ns : List Int,
      (remoteRun initialRemoteState (ns.map RemoteEvent.tick)).isPreviewActive = false) ∧
    (∀ (s : RemoteState) (ts : Int) (mid : List Int) (n : Int),
      ts + livenessTimeoutMs ≤ n →
      (remoteRun (onHeartbeat ts s)
        ((mid ++ [n]).map RemoteEvent.tick)).isPreviewActive = false) := by
  refine ⟨?_, ?_, ?_⟩
  · intro s t now hlast
    simp [pollTick, hlast]
  · intro ns
    rw [remoteRun_ticks_none]
    rfl
  · intro s ts mid n hn
    rw [List.map_append, remoteRun, List.foldl_append]
    have hmid : (mid.map RemoteEvent.tick).foldl remoteStep (onHeartbeat ts s) =
        remoteRun ⟨some ts, true⟩ (mid.map RemoteEvent.tick) := rfl
    have hlast := remoteRun_ticks_lastHeartbeat mid ts true
    rw [hmid]
    cases hstate : remoteRun ⟨some ts, true⟩ (mid.map RemoteEvent.tick) with
    | mk lastHb active =>
      rw [hstate] at hlast
      simp only at hlast
      subst hlast
      simp only [List.map_cons, List.map_nil, List.foldl_cons, List.foldl_nil,
        remoteStep, pollTick]
      simp only [livenessTimeoutMs] at hn ⊢
      simp [show ¬ (n - ts < 10000) by omega]

/-- Witness for `heartbeat_liveness`: heartbeat at `t = 0`, one early poll
tick, then a poll tick at `t = 10000`. -/
theorem heartbeat_liveness_witness :
    (pollTick 12000 ⟨some 0, true⟩).isPreviewActive =
        decide ((12000 : Int) - 0 < livenessTimeoutMs) ∧
      (remoteRun initialRemoteState
        ([1000, 2000].map RemoteEvent.tick)).isPreviewActive = false ∧
      (remoteRun (onHeartbeat 0 initialRemoteState)
        (([1000] ++ [10000]).map RemoteEvent.tick)).isPreviewActive = false :=
  ⟨heartbeat_liveness.1 ⟨some 0, true⟩ 0 12000 rfl,
    heartbeat_liveness.2.1 [1000, 2000],
    heartbeat_liveness.2.2 initialRemoteState 0 [1000] 10000 (by decide)⟩

end StreamingSlides
